import Mathlib

/-!
Verification development for a FAT-style read-side directory driver
(`src/dir.rs`, `src/error.rs`): directory-record decoding results,
long-file-name (LFN) reconstruction, the lazy directory iterator,
path resolution, and the error taxonomy, shallowly embedded in Lean.

Machine integers (`u8`, `u16`, `u32`) are modelled as `Nat`; byte and
UTF-16 buffers as `List Nat`.  Fallible operations return explicit
result types; a Rust `panic!` / `unwrap()` / arithmetic-overflow abort
is modelled by an explicit `fatal` constructor carrying the panic
message.
-/

namespace Fatfs

/-- Host I/O error classification (the subset of `std::io::ErrorKind`
used by the sources). -/
inductive IoErrorKind where
  | notFound
  | alreadyExists
  | invalidInput
  | invalidData
  | unexpectedEof
  | writeZero
  | other
  deriving DecidableEq, Repr

/-- Attribute bit for `READ_ONLY` in `FatFileAttributes`. -/
def READ_ONLY : Nat := 0x01

/-- Attribute bit for `HIDDEN` in `FatFileAttributes`. -/
def HIDDEN : Nat := 0x02

/-- Attribute bit for `SYSTEM` in `FatFileAttributes`. -/
def SYSTEM : Nat := 0x04

/-- Attribute bit for `VOLUME_ID` in `FatFileAttributes`. -/
def VOLUME_ID : Nat := 0x08

/-- Attribute bit for `DIRECTORY` in `FatFileAttributes`. -/
def DIRECTORY : Nat := 0x10

/-- Attribute bit for `ARCHIVE` in `FatFileAttributes`. -/
def ARCHIVE : Nat := 0x20

/-- Combined attribute mask marking an LFN record:
`READ_ONLY | HIDDEN | SYSTEM | VOLUME_ID`. -/
def LFN_MASK : Nat := READ_ONLY ||| HIDDEN ||| SYSTEM ||| VOLUME_ID

/-- Bitflags `contains`: all bits of `m` are set in `a`
(`(a & m) == m` in the Rust `bitflags` implementation). -/
def attrContains (a m : Nat) : Bool := a &&& m == m

/-- Embedding of `FatDirFileEntryData` (a decoded Short Entry record).
`name` is the raw 11-byte 8.3 name; multi-byte fields are the decoded
little-endian values. -/
structure FatDirFileEntryData where
  name : List Nat
  attrs : Nat
  reserved_0 : Nat := 0
  create_time_0 : Nat := 0
  create_time_1 : Nat := 0
  create_date : Nat := 0
  access_date : Nat := 0
  first_cluster_hi : Nat := 0
  modify_time : Nat := 0
  modify_date : Nat := 0
  first_cluster_lo : Nat := 0
  size : Nat := 0
  deriving DecidableEq, Repr

/-- Embedding of `FatDirLfnEntryData` (a decoded LFN Fragment record).
The decoder always produces `name_0`, `name_1`, `name_2` of lengths
5, 6 and 2 (they come from fixed-size `[u16; _]` arrays); theorems
state that invariant explicitly where it matters. -/
structure FatDirLfnEntryData where
  order : Nat
  name_0 : List Nat
  attrs : Nat := LFN_MASK
  entry_type : Nat := 0
  checksum : Nat := 0
  name_1 : List Nat
  reserved_0 : Nat := 0
  name_2 : List Nat
  deriving DecidableEq, Repr

/-- Embedding of `FatDirEntryData`: the result of decoding one raw
32-byte directory record. -/
inductive FatDirEntryData where
  | file (data : FatDirFileEntryData)
  | lfn (data : FatDirLfnEntryData)
  deriving DecidableEq, Repr

/-- One outcome of `read_dir_entry_data`: either a decoded record or a
propagated I/O error (`?` on the reads).  A directory's raw stream is
modelled as the list of these outcomes in on-disk order. -/
inductive DecodeResult where
  | ok (data : FatDirEntryData)
  | err (e : IoErrorKind)
  deriving DecidableEq, Repr

/-- Embedding of `FatDirEntry`: a resolved directory entry, a Short
Entry plus the reconstructed long name (empty list when no LFN
preceded it).  The shared filesystem-state handle of the source is
not stored; it is passed separately where needed (`to_dir`). -/
structure FatDirEntry where
  data : FatDirFileEntryData
  lfn : List Nat
  deriving DecidableEq, Repr

/-- Decoded DOS date `(year, month, day)`, embedding `convert_date`
(the chrono calendar object is modelled by the extracted triple). -/
def convert_date (dos_date : Nat) : Nat × Nat × Nat :=
  ((dos_date >>> 9) + 1980, (dos_date >>> 5) &&& 0xF, dos_date &&& 0x1F)

/-- Decoded DOS date-time `((year, month, day), (hour, min, sec))`,
embedding `convert_date_time`. -/
def convert_date_time (dos_date dos_time : Nat) :
    (Nat × Nat × Nat) × (Nat × Nat × Nat) :=
  (convert_date dos_date,
   (dos_time >>> 11, (dos_time >>> 5) &&& 0x3F, (dos_time &&& 0x1F) * 2))

/-- Unicode White_Space code points below 0x80, as trimmed by Rust's
`str::trim_right` on the ASCII short-name bytes. -/
def isAsciiWs (b : Nat) : Bool :=
  b == 0x20 || b == 0x9 || b == 0xA || b == 0xB || b == 0xC || b == 0xD

/-- Trailing-whitespace trim on a byte sequence. -/
def trimRightWs (l : List Nat) : List Nat :=
  (l.reverse.dropWhile isAsciiWs).reverse

/-- Embedding of `FatDirEntry::short_file_name`: base is bytes 0..8
trimmed of trailing whitespace, extension bytes 8..11 likewise; joined
with a dot (0x2E) when the extension is non-empty.  The name bytes are
ASCII (spec section 3), so `str::from_utf8(..).unwrap()` is the
identity on them. -/
def FatDirEntry.short_file_name (e : FatDirEntry) : List Nat :=
  let name := trimRightWs (e.data.name.take 8)
  let ext := trimRightWs ((e.data.name.drop 8).take 3)
  if ext = [] then name else name ++ [0x2E] ++ ext

/-- Embedding of `FatDirEntry::file_name`: the long name when any LFN
fragment was accumulated, otherwise the short name.  Names are
compared as sequences of code points (the UTF-16 units of the LFN are
BMP code points; the UTF-8/UTF-16 encodings of the source are
injective on those, so code-point-level comparison is faithful). -/
def FatDirEntry.file_name (e : FatDirEntry) : List Nat :=
  if e.lfn ≠ [] then e.lfn else e.short_file_name

/-- Embedding of `FatDirEntry::attributes`. -/
def FatDirEntry.attributes (e : FatDirEntry) : Nat := e.data.attrs

/-- Embedding of `FatDirEntry::is_dir`. -/
def FatDirEntry.is_dir (e : FatDirEntry) : Bool :=
  attrContains e.data.attrs DIRECTORY

/-- Embedding of `FatDirEntry::is_file`. -/
def FatDirEntry.is_file (e : FatDirEntry) : Bool := !e.is_dir

/-- Embedding of `FatDirEntry::first_cluster`: `(hi << 16) | lo`. -/
def FatDirEntry.first_cluster (e : FatDirEntry) : Nat :=
  (e.data.first_cluster_hi <<< 16) ||| e.data.first_cluster_lo

/-- Embedding of `FatDirEntry::len`. -/
def FatDirEntry.len (e : FatDirEntry) : Nat := e.data.size

/-- Embedding of `FatDirEntry::created`. -/
def FatDirEntry.created (e : FatDirEntry) : (Nat × Nat × Nat) × (Nat × Nat × Nat) :=
  convert_date_time e.data.create_date e.data.create_time_1

/-- Embedding of `FatDirEntry::accessed`. -/
def FatDirEntry.accessed (e : FatDirEntry) : Nat × Nat × Nat :=
  convert_date e.data.access_date

/-- Embedding of `FatDirEntry::modified`. -/
def FatDirEntry.modified (e : FatDirEntry) : (Nat × Nat × Nat) × (Nat × Nat × Nat) :=
  convert_date_time e.data.modify_date e.data.modify_time

/-- Result of a handle conversion (`to_file` / `to_dir`): the handle,
or a process abort carrying the `panic!` message. -/
inductive ConvRes (α : Type) where
  | ok (a : α)
  | fatal (msg : String)
  deriving DecidableEq, Repr

/-- Embedding of `FatFile` as far as this core constructs it: the
first cluster and the optional byte size passed to `FatFile::new`. -/
structure FatFile where
  first_cluster : Nat
  size : Option Nat
  deriving DecidableEq, Repr

/-- Embedding of `FatDirEntry::to_file`: panics on a directory entry,
otherwise builds the file handle from the first cluster and size. -/
def FatDirEntry.to_file (e : FatDirEntry) : ConvRes FatFile :=
  if e.is_dir then ConvRes.fatal "This is a directory"
  else ConvRes.ok ⟨e.first_cluster, some e.data.size⟩

/-- Embedding of `FatDir`: the underlying readable/seekable record
stream.  `full` is the directory's whole record region (what a seek to
the start reaches); `remaining` is the unread suffix at the current
cursor position.  The shared filesystem state of the source is
modelled as the map `fs : Nat → List DecodeResult` from a first
cluster to that directory's record stream, passed where needed. -/
structure FatDir where
  full : List DecodeResult
  remaining : List DecodeResult
  deriving DecidableEq, Repr

/-- Embedding of `FatDirEntry::to_dir`: panics on a non-directory
entry, otherwise opens a directory over the file stream starting at
the entry's first cluster. -/
def FatDirEntry.to_dir (fs : Nat → List DecodeResult) (e : FatDirEntry) :
    ConvRes FatDir :=
  if !e.is_dir then ConvRes.fatal "This is a file"
  else ConvRes.ok ⟨fs e.first_cluster, fs e.first_cluster⟩

/-- Embedding of the LFN-buffer store in `FatDir::next`: compute
`index = (order & 0x1F) - 1` (the caller has ruled out underflow),
`pos = 13 * index`, grow the buffer with zero-fill to `pos + 13` when
it is shorter, then overwrite `[pos, pos+5)`, `[pos+5, pos+11)` and
`[pos+11, pos+13)` with the three name chunks (`clone_from_slice`). -/
def lfnStore (buf : List Nat) (d : FatDirLfnEntryData) : List Nat :=
  let pos := 13 * ((d.order &&& 0x1F) - 1)
  let buf1 := if buf.length < pos + 13 then
      buf ++ List.replicate (pos + 13 - buf.length) 0 else buf
  let buf2 := buf1.take pos ++ d.name_0 ++ buf1.drop (pos + 5)
  let buf3 := buf2.take (pos + 5) ++ d.name_1 ++ buf2.drop (pos + 11)
  buf3.take (pos + 11) ++ d.name_2 ++ buf3.drop (pos + 13)

/-- Embedding of the truncation loop in `FatDir::next`: the length
left after stepping `lfn_len` down while the preceding unit is 0x0000
or 0xFFFF. -/
def lfnTruncLen (buf : List Nat) : Nat → Nat
  | 0 => 0
  | n + 1 =>
    if buf.getD n 0 = 0xFFFF ∨ buf.getD n 0 = 0 then lfnTruncLen buf n
    else n + 1

/-- The LFN buffer with trailing 0x0000/0xFFFF padding removed, as
`lfn_buf.truncate(lfn_len)` leaves it. -/
def lfnTruncate (buf : List Nat) : List Nat :=
  buf.take (lfnTruncLen buf buf.length)

/-- First byte of a Short Entry's raw name (`data.name[0]`). -/
def firstNameByte (d : FatDirFileEntryData) : Nat := d.name.headD 0

/-- One outcome of the iterator's `next`: end of directory (`None`),
a yielded entry (`Some(Ok(_))`), a propagated decode error
(`Some(Err(_))`), or a process abort inside the loop body. -/
inductive NextRes where
  | endOfDir
  | entry (e : FatDirEntry)
  | ioError (e : IoErrorKind)
  | fatal (msg : String)
  deriving DecidableEq, Repr

/-- Embedding of the loop of `FatDir::next` over the remaining record
stream, threading the local `lfn_buf`.  An exhausted stream yields the
`UnexpectedEof` error the underlying byte reads produce there.  On an
LFN fragment whose order low 5 bits are zero, `(order & 0x1F) - 1`
underflows `u8`; this is modelled as a `fatal` outcome carrying the
Rust overflow-panic message. -/
def nextLoop (buf : List Nat) : List DecodeResult → NextRes × List DecodeResult
  | [] => (NextRes.ioError IoErrorKind.unexpectedEof, [])
  | DecodeResult.err e :: rest => (NextRes.ioError e, rest)
  | DecodeResult.ok (FatDirEntryData.file data) :: rest =>
    if firstNameByte data = 0 then (NextRes.endOfDir, rest)
    else if firstNameByte data = 0xE5 ∨ attrContains data.attrs VOLUME_ID then
      nextLoop [] rest
    else (NextRes.entry ⟨data, lfnTruncate buf⟩, rest)
  | DecodeResult.ok (FatDirEntryData.lfn data) :: rest =>
    if data.order = 0xE5 then nextLoop [] rest
    else if data.order &&& 0x1F = 0 then
      (NextRes.fatal "attempt to subtract with overflow", rest)
    else nextLoop (lfnStore buf data) rest

/-- Embedding of `Iterator::next` for `FatDir`: run the loop from an
empty LFN buffer and advance the cursor. -/
def FatDir.next (d : FatDir) : NextRes × FatDir :=
  let (r, rest) := nextLoop [] d.remaining
  (r, { d with remaining := rest })

/-- Embedding of `FatDir::rewind`: seek the reader back to the start
of the directory region. -/
def FatDir.rewind (d : FatDir) : FatDir := { d with remaining := d.full }

/-- Outcome of draining the iterator as `list` does: the collected
entries, or a process abort (`.unwrap()` on a decode error, or an
abort inside `next`). -/
inductive DrainRes where
  | ok (entries : List FatDirEntry)
  | fatal (msg : String)
  deriving DecidableEq, Repr

/-- Panic message of `Result::unwrap` on an `Err` value. -/
def resultUnwrapMsg : String := "called Result unwrap on an Err value"

/-- The unread suffix strictly shrinks across one `nextLoop` call on a
non-empty stream. -/
theorem nextLoop_shrinks (buf : List Nat) (a : DecodeResult)
    (s : List DecodeResult) :
    ((nextLoop buf (a :: s)).2).length < (a :: s).length := by
  induction s generalizing buf a with
  | nil =>
    cases a with
    | err e => simp [nextLoop]
    | ok d =>
      cases d with
      | file fd =>
        by_cases h0 : firstNameByte fd = 0 <;>
          by_cases h1 : firstNameByte fd = 0xE5 ∨ attrContains fd.attrs VOLUME_ID <;>
          simp [nextLoop, h0, h1]
      | lfn ld =>
        by_cases h0 : ld.order = 0xE5 <;>
          by_cases h1 : ld.order &&& 0x1F = 0 <;>
          simp [nextLoop, h0, h1]
  | cons b s ih =>
    cases a with
    | err e => simp [nextLoop]
    | ok d =>
      cases d with
      | file fd =>
        by_cases h0 : firstNameByte fd = 0
        · simp [nextLoop, h0]
        · by_cases h1 : firstNameByte fd = 0xE5 ∨ attrContains fd.attrs VOLUME_ID
          · simpa [nextLoop, h0, h1] using Nat.lt_trans (ih [] b) (Nat.lt_succ_self _)
          · simp [nextLoop, h0, h1]
      | lfn ld =>
        by_cases h0 : ld.order = 0xE5
        · simpa [nextLoop, h0] using Nat.lt_trans (ih [] b) (Nat.lt_succ_self _)
        · by_cases h1 : ld.order &&& 0x1F = 0
          · simp [nextLoop, h0, h1]
          · simpa [nextLoop, h0, h1] using
              Nat.lt_trans (ih (lfnStore buf ld) b) (Nat.lt_succ_self _)

/-- Embedding of the drain performed by `list`'s
`self.map(|x| x.unwrap()).collect()`: repeated `next` until the end
marker, collecting yielded entries, aborting on any error.  Also
returns the unread suffix left at the cursor. -/
def drainFrom (s : List DecodeResult) : DrainRes × List DecodeResult :=
  match h : nextLoop [] s with
  | (NextRes.endOfDir, rest) => (DrainRes.ok [], rest)
  | (NextRes.entry e, rest) =>
    match drainFrom rest with
    | (DrainRes.ok es, rest2) => (DrainRes.ok (e :: es), rest2)
    | (DrainRes.fatal m, rest2) => (DrainRes.fatal m, rest2)
  | (NextRes.ioError _, rest) => (DrainRes.fatal resultUnwrapMsg, rest)
  | (NextRes.fatal m, rest) => (DrainRes.fatal m, rest)
termination_by s.length
decreasing_by
  cases s with
  | nil => simp [nextLoop] at h
  | cons a s' =>
    have := nextLoop_shrinks [] a s'
    rw [h] at this
    exact this

/-- Embedding of `FatDir::list`: rewind, then drain fully. -/
def FatDir.list (d : FatDir) : DrainRes × FatDir :=
  let d1 := d.rewind
  let (res, rest) := drainFrom d1.remaining
  (res, { d1 with remaining := rest })

/-- Code point of the path separator. -/
def SLASH : Nat := 47

/-- Embedding of `path.trim_matches('/')`: strip leading and trailing
separator code points.  Paths are sequences of Unicode code points. -/
def trimMatchesSlash (path : List Nat) : List Nat :=
  ((path.dropWhile (fun c => c == SLASH)).reverse.dropWhile
    (fun c => c == SLASH)).reverse

/-- Split at the first separator (`splitn(2, "/")`): the component
before it, and the suffix after it when one exists. -/
def splitFirstSlash : List Nat → List Nat × Option (List Nat)
  | [] => ([], none)
  | c :: cs =>
    if c = SLASH then ([], some cs)
    else
      let r := splitFirstSlash cs
      (c :: r.1, r.2)

/-- Embedding of `FatDir::split_path`: trim separators at both ends,
then split at the first remaining separator. -/
def split_path (path : List Nat) : List Nat × Option (List Nat) :=
  splitFirstSlash (trimMatchesSlash path)

/-- ASCII lower-case fold of one code point. -/
def asciiLower (c : Nat) : Nat := if 65 ≤ c ∧ c ≤ 90 then c + 32 else c

/-- Embedding of `str::eq_ignore_ascii_case`: equality after ASCII
lower-case folding of each code point (non-ASCII points unchanged). -/
def eq_ignore_ascii_case (a b : List Nat) : Bool :=
  a.map asciiLower == b.map asciiLower

/-- Outcome of a resolving operation (`find_entry`, `open_dir`,
`open_file`): a handle, a returned `io::Error` of the given kind, or
a process abort. -/
inductive OpenRes (α : Type) where
  | ok (a : α)
  | err (kind : IoErrorKind)
  | fatal (msg : String)
  deriving DecidableEq, Repr

/-- Embedding of `FatDir::find_entry`: list the directory, linearly
scan for the first entry whose display name equals `name` ASCII
case-insensitively, and fail with a not-found error when none does.
A fatal drain propagates as the abort it is. -/
def FatDir.find_entry (d : FatDir) (name : List Nat) : OpenRes FatDirEntry :=
  match (d.list).1 with
  | DrainRes.ok es =>
    match es.find? (fun e => eq_ignore_ascii_case e.file_name name) with
    | some e => OpenRes.ok e
    | none => OpenRes.err IoErrorKind.notFound
  | DrainRes.fatal m => OpenRes.fatal m

/-- Tail suffix of a successful `split_path` is strictly shorter than
the split list. -/
theorem splitFirstSlash_rest_length (l : List Nat) :
    ∀ r, (splitFirstSlash l).2 = some r → r.length < l.length := by
  induction l with
  | nil => intro r h; simp [splitFirstSlash] at h
  | cons c cs ih =>
    intro r h
    by_cases hc : c = SLASH
    · simp [splitFirstSlash, hc] at h
      simp [← h]
    · simp [splitFirstSlash, hc] at h
      have := ih r h
      simp
      omega

/-- Trimming separators does not lengthen a path. -/
theorem trimMatchesSlash_length_le (p : List Nat) :
    (trimMatchesSlash p).length ≤ p.length := by
  unfold trimMatchesSlash
  calc ((p.dropWhile (fun c => c == SLASH)).reverse.dropWhile
          (fun c => c == SLASH)).reverse.length
      = ((p.dropWhile (fun c => c == SLASH)).reverse.dropWhile
          (fun c => c == SLASH)).length := List.length_reverse _
    _ ≤ (p.dropWhile (fun c => c == SLASH)).reverse.length :=
        (List.dropWhile_sublist _).length_le
    _ = (p.dropWhile (fun c => c == SLASH)).length := List.length_reverse _
    _ ≤ p.length := (List.dropWhile_sublist _).length_le

/-- The recursive tail handed to `open_dir`/`open_file` is strictly
shorter than the path it came from. -/
theorem split_path_rest_length (p r : List Nat) :
    (split_path p).2 = some r → r.length < p.length := by
  intro h
  have h1 := splitFirstSlash_rest_length (trimMatchesSlash p) r h
  have h2 := trimMatchesSlash_length_le p
  omega

/-- Embedding of `FatDir::open_dir`: split the path, look up the head
component, recurse into the matched entry with the tail when a tail
exists, otherwise convert the matched entry to a directory handle. -/
def FatDir.open_dir (fs : Nat → List DecodeResult) (d : FatDir)
    (path : List Nat) : OpenRes FatDir :=
  match d.find_entry (split_path path).1 with
  | OpenRes.err k => OpenRes.err k
  | OpenRes.fatal m => OpenRes.fatal m
  | OpenRes.ok e =>
    match h : (split_path path).2 with
    | some rest =>
      (match e.to_dir fs with
       | ConvRes.ok d2 => FatDir.open_dir fs d2 rest
       | ConvRes.fatal m => OpenRes.fatal m)
    | none =>
      (match e.to_dir fs with
       | ConvRes.ok d2 => OpenRes.ok d2
       | ConvRes.fatal m => OpenRes.fatal m)
termination_by path.length
decreasing_by exact split_path_rest_length path rest h

/-- Embedding of `FatDir::open_file`: like `open_dir`, but the final
component converts to a file handle. -/
def FatDir.open_file (fs : Nat → List DecodeResult) (d : FatDir)
    (path : List Nat) : OpenRes FatFile :=
  match d.find_entry (split_path path).1 with
  | OpenRes.err k => OpenRes.err k
  | OpenRes.fatal m => OpenRes.fatal m
  | OpenRes.ok e =>
    match h : (split_path path).2 with
    | some rest =>
      (match e.to_dir fs with
       | ConvRes.ok d2 => FatDir.open_file fs d2 rest
       | ConvRes.fatal m => OpenRes.fatal m)
    | none =>
      (match e.to_file with
       | ConvRes.ok f => OpenRes.ok f
       | ConvRes.fatal m => OpenRes.fatal m)
termination_by path.length
decreasing_by exact split_path_rest_length path rest h

/-- Embedding of the `Error<T>` taxonomy of `error.rs`.  The `Io`
variant's payload is modelled by the wrapped error's host
classification (its `ErrorKind`), which is all the `From` conversion
inspects. -/
inductive Error where
  | ioErr (kind : IoErrorKind)
  | UnexpectedEof
  | WriteZero
  | InvalidInput
  | NotFound
  | AlreadyExists
  | DirectoryIsNotEmpty
  | CorruptedFileSystem
  | NotEnoughSpace
  | InvalidFileNameLength
  | UnsupportedFileNameCharacter
  | Nonexhaustive
  deriving DecidableEq, Repr

/-- Embedding of `From<Error<std::io::Error>> for std::io::Error`,
restricted to the resulting `ErrorKind`: `Io` keeps the wrapped
error's own kind; the other variants map per the `match` in
`error.rs`. -/
def Error.toIoErrorKind : Error → IoErrorKind
  | Error.ioErr k => k
  | Error.UnexpectedEof => IoErrorKind.unexpectedEof
  | Error.NotEnoughSpace => IoErrorKind.unexpectedEof
  | Error.WriteZero => IoErrorKind.writeZero
  | Error.InvalidInput => IoErrorKind.invalidInput
  | Error.InvalidFileNameLength => IoErrorKind.invalidInput
  | Error.UnsupportedFileNameCharacter => IoErrorKind.invalidInput
  | Error.DirectoryIsNotEmpty => IoErrorKind.invalidInput
  | Error.NotFound => IoErrorKind.notFound
  | Error.AlreadyExists => IoErrorKind.alreadyExists
  | Error.CorruptedFileSystem => IoErrorKind.invalidData
  | Error.Nonexhaustive => IoErrorKind.other

/-- Embedding of `IoError::is_interrupted` for `Error<T>`: delegated
to the wrapped storage error, false for every non-`Io` variant. -/
def Error.is_interrupted (interrupted : IoErrorKind → Bool) : Error → Bool
  | Error.ioErr k => interrupted k
  | _ => false

/-- Spec-side write of one fragment (section 4.2 of the spec): grow
the buffer with zero-fill when shorter than `off + units.length`, then
overwrite `[off, off + units.length)` with `units`. -/
def writeUnitsAt (buf : List Nat) (off : Nat) (units : List Nat) : List Nat :=
  let buf1 := if buf.length < off + units.length then
      buf ++ List.replicate (off + units.length - buf.length) 0 else buf
  buf1.take off ++ units ++ buf1.drop (off + units.length)

/-- The 13 UTF-16 code units a fragment carries (5 + 6 + 2). -/
def fragUnits (f : FatDirLfnEntryData) : List Nat :=
  f.name_0 ++ f.name_1 ++ f.name_2

/-- Spec-side LFN buffer (the claim's wording): starting from an empty
buffer, write each fragment's 13 code units at offset
`((order & 0x1F) - 1) * 13` in arrival order. -/
def claimedLfnBuffer (frags : List FatDirLfnEntryData) : List Nat :=
  frags.foldl
    (fun b f => writeUnitsAt b (((f.order &&& 0x1F) - 1) * 13) (fragUnits f)) []

/-- Spec-side trim: remove trailing code units equal to 0x0000 or
0xFFFF from the end of the buffer. -/
def trimTrailingPad (buf : List Nat) : List Nat :=
  (buf.reverse.dropWhile (fun u => u == 0 || u == 0xFFFF)).reverse

/-- A directory entry whose record carries the `DIRECTORY` attribute
(the subdirectory `DIR`, first cluster 2). -/
def dirEntryEx : FatDirEntry :=
  ⟨{ name := [68, 73, 82, 32, 32, 32, 32, 32, 32, 32, 32], attrs := DIRECTORY,
     first_cluster_lo := 2 }, []⟩

/-- A plain file entry (`F.TXT`, 5 bytes). -/
def fileEntryEx : FatDirEntry :=
  ⟨{ name := [70, 32, 32, 32, 32, 32, 32, 32, 84, 88, 84], attrs := ARCHIVE,
     size := 5 }, []⟩

/-- The all-zero end-of-directory Short Entry record. -/
def termRec : FatDirFileEntryData := { name := List.replicate 11 0, attrs := 0 }

/-- LFN fragment in slot 1, carrying code units 65..77 (`A`..`M`). -/
def lfnFragOrd1 : FatDirLfnEntryData :=
  { order := 1, name_0 := [65, 66, 67, 68, 69],
    name_1 := [70, 71, 72, 73, 74, 75], name_2 := [76, 77] }

/-- LFN fragment in slot 2 with the last-fragment marker bit 0x40,
carrying `N`, `O`, a NUL terminator and 0xFFFF padding. -/
def lfnFragOrd2 : FatDirLfnEntryData :=
  { order := 0x42, name_0 := [78, 79, 0, 0xFFFF, 0xFFFF],
    name_1 := [0xFFFF, 0xFFFF, 0xFFFF, 0xFFFF, 0xFFFF, 0xFFFF],
    name_2 := [0xFFFF, 0xFFFF] }

/-- Short Entry `HELLO.TXT` terminating an LFN run. -/
def shortHello : FatDirFileEntryData :=
  { name := [72, 69, 76, 76, 79, 32, 32, 32, 84, 88, 84], attrs := 0x20, size := 5 }

/-- Record region of the root directory used in examples: the `DIR`
subdirectory entry and the end marker. -/
def rootRecords : List DecodeResult :=
  [DecodeResult.ok (FatDirEntryData.file dirEntryEx.data),
   DecodeResult.ok (FatDirEntryData.file termRec)]

/-- Record region of the subdirectory at cluster 2: one file entry
and the end marker. -/
def subRecords : List DecodeResult :=
  [DecodeResult.ok (FatDirEntryData.file fileEntryEx.data),
   DecodeResult.ok (FatDirEntryData.file termRec)]

/-- The example root directory positioned at its start. -/
def rootDirEx : FatDir := ⟨rootRecords, rootRecords⟩

/-- The example filesystem state: cluster 2 holds `subRecords`. -/
def fsEx : Nat → List DecodeResult := fun c => if c = 2 then subRecords else []

/-- One-step unfolding of `drainFrom`. -/
theorem drainFrom_step (s : List DecodeResult) :
    drainFrom s = (match nextLoop [] s with
      | (NextRes.endOfDir, rest) => (DrainRes.ok [], rest)
      | (NextRes.entry e, rest) =>
        (match drainFrom rest with
         | (DrainRes.ok es, rest2) => (DrainRes.ok (e :: es), rest2)
         | (DrainRes.fatal m, rest2) => (DrainRes.fatal m, rest2))
      | (NextRes.ioError _, rest) => (DrainRes.fatal resultUnwrapMsg, rest)
      | (NextRes.fatal m, rest) => (DrainRes.fatal m, rest)) := by
  rw [drainFrom]
  rcases h : nextLoop [] s with ⟨r, rest⟩
  cases r <;> rfl

/-- C5: a Short Entry whose first name byte is 0x00 makes the
iterator's step return end-of-directory without consuming the rest of
the stream, and makes the full drain of such a stream yield no
entries at all, whatever well-formed records follow. -/
theorem claim5_end_marker_terminates (fd : FatDirFileEntryData)
    (rest : List DecodeResult) (buf : List Nat) (h : firstNameByte fd = 0) :
    nextLoop buf (DecodeResult.ok (FatDirEntryData.file fd) :: rest)
      = (NextRes.endOfDir, rest)
    ∧ drainFrom (DecodeResult.ok (FatDirEntryData.file fd) :: rest)
      = (DrainRes.ok [], rest) := by
  constructor
  · simp [nextLoop, h]
  · rw [drainFrom_step]
    simp [nextLoop, h]

/-- Witness for C5 on the all-zero record followed by a further
well-formed file record: iteration ends and no entry is yielded. -/
theorem claim5_end_marker_terminates_witness :
    firstNameByte termRec = 0
    ∧ (nextLoop [] (DecodeResult.ok (FatDirEntryData.file termRec)
          :: [DecodeResult.ok (FatDirEntryData.file fileEntryEx.data)])
        = (NextRes.endOfDir, [DecodeResult.ok (FatDirEntryData.file fileEntryEx.data)])
      ∧ drainFrom (DecodeResult.ok (FatDirEntryData.file termRec)
          :: [DecodeResult.ok (FatDirEntryData.file fileEntryEx.data)])
        = (DrainRes.ok [], [DecodeResult.ok (FatDirEntryData.file fileEntryEx.data)])) :=
  ⟨by decide,
   claim5_end_marker_terminates termRec
     [DecodeResult.ok (FatDirEntryData.file fileEntryEx.data)] [] (by decide)⟩

/-- C6: a deleted Short Entry (first name byte 0xE5), a `VOLUME_ID`
Short Entry, and a deleted LFN Fragment (order byte 0xE5) are all
skipped: the iterator step continues on the remaining stream with the
accumulated LFN buffer discarded, so the drain yields exactly what the
remaining stream yields; a `VOLUME_ID` record whose first name byte is
0x00 is the end marker and likewise yields nothing. -/
theorem claim6_skipped_records (buf : List Nat) (rest : List DecodeResult) :
    (∀ fd : FatDirFileEntryData, firstNameByte fd = 0xE5 →
      nextLoop buf (DecodeResult.ok (FatDirEntryData.file fd) :: rest)
        = nextLoop [] rest
      ∧ drainFrom (DecodeResult.ok (FatDirEntryData.file fd) :: rest)
        = drainFrom rest)
    ∧ (∀ fd : FatDirFileEntryData, attrContains fd.attrs VOLUME_ID = true →
        firstNameByte fd ≠ 0 →
      nextLoop buf (DecodeResult.ok (FatDirEntryData.file fd) :: rest)
        = nextLoop [] rest
      ∧ drainFrom (DecodeResult.ok (FatDirEntryData.file fd) :: rest)
        = drainFrom rest)
    ∧ (∀ fd : FatDirFileEntryData, attrContains fd.attrs VOLUME_ID = true →
        firstNameByte fd = 0 →
      drainFrom (DecodeResult.ok (FatDirEntryData.file fd) :: rest)
        = (DrainRes.ok [], rest))
    ∧ (∀ ld : FatDirLfnEntryData, ld.order = 0xE5 →
      nextLoop buf (DecodeResult.ok (FatDirEntryData.lfn ld) :: rest)
        = nextLoop [] rest
      ∧ drainFrom (DecodeResult.ok (FatDirEntryData.lfn ld) :: rest)
        = drainFrom rest) := by
  refine ⟨fun fd h => ?_, fun fd hv h0 => ?_, fun fd hv h0 => ?_, fun ld h => ?_⟩
  · have hstep : nextLoop [] (DecodeResult.ok (FatDirEntryData.file fd) :: rest)
        = nextLoop [] rest := by simp [nextLoop, h]
    constructor
    · simp [nextLoop, h]
    · rw [drainFrom_step, hstep, drainFrom_step]
  · have hstep : nextLoop [] (DecodeResult.ok (FatDirEntryData.file fd) :: rest)
        = nextLoop [] rest := by simp [nextLoop, hv, h0]
    constructor
    · simp [nextLoop, hv, h0]
    · rw [drainFrom_step, hstep, drainFrom_step]
  · rw [drainFrom_step]
    simp [nextLoop, h0]
  · have hstep : nextLoop [] (DecodeResult.ok (FatDirEntryData.lfn ld) :: rest)
        = nextLoop [] rest := by simp [nextLoop, h]
    constructor
    · simp [nextLoop, h]
    · rw [drainFrom_step, hstep, drainFrom_step]

/-- Witness for C6: a deleted Short Entry followed by a real file
record drains to exactly that one entry, with no long name leaked. -/
theorem claim6_skipped_records_witness :
    firstNameByte { name := 0xE5 :: List.replicate 10 32, attrs := 0x20 } = 0xE5
    ∧ (nextLoop [5, 5] (DecodeResult.ok (FatDirEntryData.file
          { name := 0xE5 :: List.replicate 10 32, attrs := 0x20 })
          :: [DecodeResult.ok (FatDirEntryData.file fileEntryEx.data)])
        = nextLoop [] [DecodeResult.ok (FatDirEntryData.file fileEntryEx.data)]
      ∧ drainFrom (DecodeResult.ok (FatDirEntryData.file
          { name := 0xE5 :: List.replicate 10 32, attrs := 0x20 })
          :: [DecodeResult.ok (FatDirEntryData.file fileEntryEx.data)])
        = drainFrom [DecodeResult.ok (FatDirEntryData.file fileEntryEx.data)]) :=
  ⟨by decide,
   (claim6_skipped_records [5, 5]
     [DecodeResult.ok (FatDirEntryData.file fileEntryEx.data)]).1
     { name := 0xE5 :: List.replicate 10 32, attrs := 0x20 } (by decide)⟩

/-- C10: the iterator's step on a non-deleted LFN fragment is
error-free only when the fragment's order low 5 bits are at least 1:
`(order & 0x1F) - 1` underflows the unsigned byte when they are all
zero, aborting the step; with the precondition the step stores the
fragment and continues. -/
theorem claim10_order_underflow (buf : List Nat) (rest : List DecodeResult)
    (ld : FatDirLfnEntryData) (hdel : ld.order ≠ 0xE5) :
    (ld.order &&& 0x1F = 0 →
      nextLoop buf (DecodeResult.ok (FatDirEntryData.lfn ld) :: rest)
        = (NextRes.fatal "attempt to subtract with overflow", rest))
    ∧ (1 ≤ ld.order &&& 0x1F →
      nextLoop buf (DecodeResult.ok (FatDirEntryData.lfn ld) :: rest)
        = nextLoop (lfnStore buf ld) rest) := by
  constructor
  · intro h
    simp [nextLoop, hdel, h]
  · intro h
    have h0 : ¬ (ld.order &&& 0x1F = 0) := by omega
    simp [nextLoop, hdel, h0]

/-- Witness for C10 at order byte 0x40 (only the last-fragment marker
bit set, low 5 bits zero): the step aborts with the overflow panic. -/
theorem claim10_order_underflow_witness :
    ((0x40 : Nat) ≠ 0xE5 ∧ (0x40 : Nat) &&& 0x1F = 0)
    ∧ nextLoop [] [DecodeResult.ok (FatDirEntryData.lfn
        { order := 0x40, name_0 := [0, 0, 0, 0, 0], name_1 := [0, 0, 0, 0, 0, 0],
          name_2 := [0, 0] })]
      = (NextRes.fatal "attempt to subtract with overflow", []) :=
  ⟨⟨by decide, by decide⟩,
   (claim10_order_underflow []
      [] { order := 0x40, name_0 := [0, 0, 0, 0, 0], name_1 := [0, 0, 0, 0, 0, 0],
           name_2 := [0, 0] } (by decide)).1 (by decide)⟩

/-- C2: `list()` does not return a decode failure to the caller; the
internal `unwrap` turns the failure into a process abort, so a stream
whose head decode fails makes `list` fatal with the unwrap panic, and
any reached decode failure drains to the fatal outcome with no partial
entry sequence. -/
theorem claim2_list_panics_on_decode_error :
    (FatDir.list ⟨[DecodeResult.err IoErrorKind.unexpectedEof],
        [DecodeResult.err IoErrorKind.unexpectedEof]⟩).1
      = DrainRes.fatal resultUnwrapMsg
    ∧ ∀ (e : IoErrorKind) (rest : List DecodeResult),
        drainFrom (DecodeResult.err e :: rest)
          = (DrainRes.fatal resultUnwrapMsg, rest) := by
  constructor
  · rcases h : drainFrom [DecodeResult.err IoErrorKind.unexpectedEof] with ⟨res, rest⟩
    rw [drainFrom_step] at h
    simp [nextLoop] at h
    simp [FatDir.list, FatDir.rewind, drainFrom_step, nextLoop]
  · intro e rest
    rw [drainFrom_step]
    simp [nextLoop]

/-- C3 counterexample: converting the directory entry `dirEntryEx` to
a file handle, or the file entry `fileEntryEx` to a directory handle,
aborts the process with a panic; no `InvalidInput` error value is
returned. -/
theorem claim3_counterexample :
    dirEntryEx.to_file = ConvRes.fatal "This is a directory"
    ∧ fileEntryEx.to_dir (fun _ => []) = ConvRes.fatal "This is a file" :=
  ⟨rfl, rfl⟩

/-- C3 (amended): converting a directory entry to a file handle, or a
file entry to a directory handle, panics (aborting the process) with
the corresponding message instead of returning an error value. -/
theorem claim3_conversion_panics (e : FatDirEntry)
    (fs : Nat → List DecodeResult) :
    (e.is_dir = true → e.to_file = ConvRes.fatal "This is a directory")
    ∧ (e.is_dir = false → e.to_dir fs = ConvRes.fatal "This is a file") := by
  constructor <;> intro h <;>
    simp [FatDirEntry.to_file, FatDirEntry.to_dir, h]

/-- Witness for C3 on the concrete directory entry. -/
theorem claim3_conversion_panics_witness :
    dirEntryEx.is_dir = true
    ∧ dirEntryEx.to_file = ConvRes.fatal "This is a directory" :=
  ⟨by decide, (claim3_conversion_panics dirEntryEx (fun _ => [])).1 (by decide)⟩

/-- C8: rewinding and listing twice yields identical entry sequences
(hence identical names, attributes, sizes and timestamps in the same
order), because `list` always rewinds to the directory's full record
region, which reading never changes. -/
theorem claim8_list_repeatable (d : FatDir) :
    (((d.rewind.list).2).list).1 = (d.rewind.list).1 := by
  rcases h : drainFrom d.full with ⟨res, rest⟩
  simp [FatDir.list, FatDir.rewind, h]

/-- C9 counterexample: the `UnexpectedEof` variant is not one of
`NotFound`, `AlreadyExists`, `InvalidInput`, yet it does not map to
the `other` classification (it maps to `unexpectedEof`). -/
theorem claim9_counterexample :
    Error.UnexpectedEof.toIoErrorKind = IoErrorKind.unexpectedEof
    ∧ Error.UnexpectedEof.toIoErrorKind ≠ IoErrorKind.other := by
  constructor
  · rfl
  · decide

/-- C9 (amended): the mapping to the host classification sends
`NotFound` to not-found, `AlreadyExists` to already-exists,
`InvalidInput` (and `InvalidFileNameLength`,
`UnsupportedFileNameCharacter`, `DirectoryIsNotEmpty`) to
invalid-input, `Io(e)` to `e`'s own kind, `UnexpectedEof` and
`NotEnoughSpace` to unexpected-eof, `WriteZero` to write-zero,
`CorruptedFileSystem` to invalid-data, and the hidden placeholder
variant to other. -/
theorem claim9_error_mapping :
    Error.NotFound.toIoErrorKind = IoErrorKind.notFound
    ∧ Error.AlreadyExists.toIoErrorKind = IoErrorKind.alreadyExists
    ∧ Error.InvalidInput.toIoErrorKind = IoErrorKind.invalidInput
    ∧ Error.InvalidFileNameLength.toIoErrorKind = IoErrorKind.invalidInput
    ∧ Error.UnsupportedFileNameCharacter.toIoErrorKind = IoErrorKind.invalidInput
    ∧ Error.DirectoryIsNotEmpty.toIoErrorKind = IoErrorKind.invalidInput
    ∧ (∀ k : IoErrorKind, (Error.ioErr k).toIoErrorKind = k)
    ∧ Error.UnexpectedEof.toIoErrorKind = IoErrorKind.unexpectedEof
    ∧ Error.NotEnoughSpace.toIoErrorKind = IoErrorKind.unexpectedEof
    ∧ Error.WriteZero.toIoErrorKind = IoErrorKind.writeZero
    ∧ Error.CorruptedFileSystem.toIoErrorKind = IoErrorKind.invalidData
    ∧ Error.Nonexhaustive.toIoErrorKind = IoErrorKind.other :=
  ⟨rfl, rfl, rfl, rfl, rfl, rfl, fun _ => rfl, rfl, rfl, rfl, rfl, rfl⟩

/-- C7: DOS date/time decoding extracts year as `(date >> 9) + 1980`,
month as bits 5..8, day as bits 0..4, hour as the top 5 bits of the
16-bit time, minute as the next 6 bits, seconds as twice the low
5 bits; date 0x0021 with time 0x0000 decodes to 1980-01-01T00:00:00. -/
theorem claim7_datetime_decoding :
    (∀ dos_date dos_time : Nat,
      convert_date_time dos_date dos_time =
        ((dos_date / 2 ^ 9 + 1980, dos_date / 2 ^ 5 % 2 ^ 4, dos_date % 2 ^ 5),
         (dos_time / 2 ^ 11, dos_time / 2 ^ 5 % 2 ^ 6, dos_time % 2 ^ 5 * 2)))
    ∧ convert_date_time 0x21 0x0 = ((1980, 1, 1), (0, 0, 0)) := by
  constructor
  · intro d t
    simp only [convert_date_time, convert_date, Nat.shiftRight_eq_div_pow]
    rw [show (0xF : Nat) = 2 ^ 4 - 1 by norm_num,
        show (0x1F : Nat) = 2 ^ 5 - 1 by norm_num,
        show (0x3F : Nat) = 2 ^ 6 - 1 by norm_num,
        Nat.and_pow_two_sub_one_eq_mod, Nat.and_pow_two_sub_one_eq_mod,
        Nat.and_pow_two_sub_one_eq_mod, Nat.and_pow_two_sub_one_eq_mod]
  · decide

/-- Splicing three chunks of lengths 5, 6 and 2 at consecutive
positions `p`, `p+5`, `p+11` of a buffer long enough equals one write
of their concatenation at `[p, p+13)`. -/
theorem spliceAux (l n0 n1 n2 : List Nat) (p : Nat) (hp : p + 13 ≤ l.length)
    (h0 : n0.length = 5) (h1 : n1.length = 6) (h2 : n2.length = 2) :
    List.take (p + 11)
        (List.take (p + 5) (List.take p l ++ n0 ++ List.drop (p + 5) l) ++ n1
          ++ List.drop (p + 11) (List.take p l ++ n0 ++ List.drop (p + 5) l))
      ++ n2
      ++ List.drop (p + 13)
        (List.take (p + 5) (List.take p l ++ n0 ++ List.drop (p + 5) l) ++ n1
          ++ List.drop (p + 11) (List.take p l ++ n0 ++ List.drop (p + 5) l))
    = List.take p l ++ (n0 ++ n1 ++ n2) ++ List.drop (p + 13) l := by
  have lA : (List.take p l).length = p := by
    rw [List.length_take]
    omega
  have hA5 : (List.take p l ++ n0).length = p + 5 := by simp [lA, h0]
  have t2 : List.take (p + 5) (List.take p l ++ n0 ++ List.drop (p + 5) l)
      = List.take p l ++ n0 := List.take_left' hA5
  have d2 : List.drop (p + 11) (List.take p l ++ n0 ++ List.drop (p + 5) l)
      = List.drop (p + 11) l := by
    rw [show p + 11 = (List.take p l ++ n0).length + 6 by omega,
        ← List.drop_drop, List.drop_left, List.drop_drop,
        show p + 5 + 6 = p + 11 by omega, hA5,
        show p + 5 + 6 = p + 11 by omega]
  rw [t2, d2]
  have hA11 : (List.take p l ++ n0 ++ n1).length = p + 11 := by simp [lA, h0, h1]
  have t3 : List.take (p + 11) (List.take p l ++ n0 ++ n1 ++ List.drop (p + 11) l)
      = List.take p l ++ n0 ++ n1 := List.take_left' hA11
  have d3 : List.drop (p + 13) (List.take p l ++ n0 ++ n1 ++ List.drop (p + 11) l)
      = List.drop (p + 13) l := by
    rw [show p + 13 = (List.take p l ++ n0 ++ n1).length + 2 by omega,
        ← List.drop_drop, List.drop_left, List.drop_drop,
        show p + 11 + 2 = p + 13 by omega, hA11,
        show p + 11 + 2 = p + 13 by omega]
  rw [t3, d3]
  simp [List.append_assoc]

/-- The code's three slice writes in `FatDir::next` equal the spec's
single 13-unit write (claim formula) on fragments with the decoder's
chunk lengths. -/
theorem lfnStore_eq_writeUnitsAt (buf : List Nat) (ld : FatDirLfnEntryData)
    (h0 : ld.name_0.length = 5) (h1 : ld.name_1.length = 6)
    (h2 : ld.name_2.length = 2) :
    lfnStore buf ld
      = writeUnitsAt buf (((ld.order &&& 0x1F) - 1) * 13) (fragUnits ld) := by
  have hu : (ld.name_0 ++ ld.name_1 ++ ld.name_2).length = 13 := by
    simp [h0, h1, h2]
  simp only [lfnStore, writeUnitsAt, fragUnits, hu,
    Nat.mul_comm ((ld.order &&& 0x1F) - 1) 13]
  have hlen : 13 * ((ld.order &&& 0x1F) - 1) + 13 ≤
      (if buf.length < 13 * ((ld.order &&& 0x1F) - 1) + 13 then
        buf ++ List.replicate (13 * ((ld.order &&& 0x1F) - 1) + 13 - buf.length) 0
       else buf).length := by
    by_cases hc : buf.length < 13 * ((ld.order &&& 0x1F) - 1) + 13
    · simp [hc]
      omega
    · simp [hc]
      omega
  exact spliceAux _ ld.name_0 ld.name_1 ld.name_2
    (13 * ((ld.order &&& 0x1F) - 1)) hlen h0 h1 h2

/-- The truncation length is bounded by its argument. -/
theorem lfnTruncLen_le (buf : List Nat) : ∀ n, lfnTruncLen buf n ≤ n := by
  intro n
  induction n with
  | zero => exact Nat.le_refl 0
  | succ k ih =>
    rw [lfnTruncLen]
    split
    · exact Nat.le_succ_of_le ih
    · exact Nat.le_refl _

/-- Truncation length ignores a final element beyond its bound. -/
theorem lfnTruncLen_append (l : List Nat) (a : Nat) :
    ∀ k, k ≤ l.length → lfnTruncLen (l ++ [a]) k = lfnTruncLen l k := by
  intro k
  induction k with
  | zero => intro _; rfl
  | succ n ih =>
    intro hk
    have hg : (l ++ [a]).getD n 0 = l.getD n 0 := by
      simp only [List.getD_eq_getElem?_getD]
      rw [List.getElem?_append_left (show n < l.length by omega)]
    rw [lfnTruncLen, lfnTruncLen, hg]
    by_cases h : l.getD n 0 = 0xFFFF ∨ l.getD n 0 = 0
    · rw [if_pos h, if_pos h]
      exact ih (by omega)
    · rw [if_neg h, if_neg h]

/-- The code's truncation loop in `FatDir::next` computes exactly the
spec's trailing 0x0000/0xFFFF trim. -/
theorem lfnTruncate_eq_trimTrailingPad (buf : List Nat) :
    lfnTruncate buf = trimTrailingPad buf := by
  induction buf using List.reverseRecOn with
  | nil => rfl
  | append_singleton l a ih =>
    have hlen : (l ++ [a]).length = l.length + 1 := by simp
    have hg : (l ++ [a]).getD l.length 0 = a := by
      simp only [List.getD_eq_getElem?_getD]
      rw [List.getElem?_append_right (Nat.le_refl l.length)]
      simp
    by_cases h : a = 0xFFFF ∨ a = 0
    · have rhs : trimTrailingPad (l ++ [a]) = trimTrailingPad l := by
        unfold trimTrailingPad
        rcases h with h | h <;> subst h <;> simp
      unfold lfnTruncate
      rw [hlen, lfnTruncLen, hg, if_pos h,
          lfnTruncLen_append l a l.length (Nat.le_refl _)]
      have hle : lfnTruncLen l l.length ≤ l.length := lfnTruncLen_le l _
      rw [List.take_append_eq_append_take, Nat.sub_eq_zero_of_le hle]
      simpa [rhs] using ih
    · have hne := not_or.mp h
      have rhs : trimTrailingPad (l ++ [a]) = l ++ [a] := by
        unfold trimTrailingPad
        simp [hne.1, hne.2]
      unfold lfnTruncate
      rw [hlen, lfnTruncLen, hg, if_neg h, rhs, ← hlen]
      exact List.take_length _

/-- Driving the iterator's loop over a run of stored (non-deleted,
valid-order) fragments folds `lfnStore` over them. -/
theorem nextLoop_frags : ∀ frags : List FatDirLfnEntryData,
    (∀ f ∈ frags, f.order ≠ 0xE5 ∧ 1 ≤ f.order &&& 0x1F) →
    ∀ (buf : List Nat) (s : List DecodeResult),
    nextLoop buf
        (frags.map (fun f => DecodeResult.ok (FatDirEntryData.lfn f)) ++ s)
      = nextLoop (frags.foldl lfnStore buf) s := by
  intro frags
  induction frags with
  | nil => intro _ buf s; simp
  | cons f fs ih =>
    intro hfr buf s
    have hf := hfr f (by simp)
    have h0 : ¬ (f.order &&& 0x1F = 0) := by omega
    have hfs : ∀ g ∈ fs, g.order ≠ 0xE5 ∧ 1 ≤ g.order &&& 0x1F :=
      fun g hg => hfr g (by simp [hg])
    simp only [List.map_cons, List.cons_append, List.foldl_cons]
    rw [show nextLoop buf (DecodeResult.ok (FatDirEntryData.lfn f)
          :: (fs.map (fun f => DecodeResult.ok (FatDirEntryData.lfn f)) ++ s))
        = nextLoop (lfnStore buf f)
            (fs.map (fun f => DecodeResult.ok (FatDirEntryData.lfn f)) ++ s) from by
      simp [nextLoop, hf.1, h0]]
    exact ih hfs (lfnStore buf f) s

/-- Folding the code's store over fragments with the decoder's chunk
lengths equals folding the spec's 13-unit write. -/
theorem foldl_lfnStore_claimed : ∀ frags : List FatDirLfnEntryData,
    (∀ f ∈ frags, f.name_0.length = 5 ∧ f.name_1.length = 6
      ∧ f.name_2.length = 2) →
    ∀ b, frags.foldl lfnStore b
      = frags.foldl
        (fun bb f => writeUnitsAt bb (((f.order &&& 0x1F) - 1) * 13) (fragUnits f)) b := by
  intro frags
  induction frags with
  | nil => intro _ b; rfl
  | cons f fs ih =>
    intro hl b
    have hf := hl f (by simp)
    simp only [List.foldl_cons]
    rw [lfnStore_eq_writeUnitsAt b f hf.1 hf.2.1 hf.2.2]
    exact ih (fun g hg => hl g (by simp [hg])) _

/-- C1: a run of non-deleted LFN fragments (in any arrival order,
each with a valid 1-based slot index and the decoder's chunk lengths)
terminated by a regular Short Entry yields that entry with long name
equal to the spec-side buffer — every fragment's 13 code units written
at offset `((order & 0x1F) - 1) * 13` into a zero-grown buffer —
trimmed of trailing 0x0000/0xFFFF units. -/
theorem claim1_lfn_reconstruction (frags : List FatDirLfnEntryData)
    (fd : FatDirFileEntryData) (rest : List DecodeResult)
    (hfr : ∀ f ∈ frags, f.order ≠ 0xE5 ∧ 1 ≤ f.order &&& 0x1F
      ∧ f.name_0.length = 5 ∧ f.name_1.length = 6 ∧ f.name_2.length = 2)
    (h0 : firstNameByte fd ≠ 0) (h1 : firstNameByte fd ≠ 0xE5)
    (h2 : attrContains fd.attrs VOLUME_ID = false) :
    nextLoop [] (frags.map (fun f => DecodeResult.ok (FatDirEntryData.lfn f))
        ++ DecodeResult.ok (FatDirEntryData.file fd) :: rest)
      = (NextRes.entry ⟨fd, trimTrailingPad (claimedLfnBuffer frags)⟩, rest) := by
  rw [nextLoop_frags frags (fun f hf => ⟨(hfr f hf).1, (hfr f hf).2.1⟩) []
      (DecodeResult.ok (FatDirEntryData.file fd) :: rest)]
  rw [show frags.foldl lfnStore []
      = claimedLfnBuffer frags from
    foldl_lfnStore_claimed frags (fun f hf => (hfr f hf).2.2) []]
  simp [nextLoop, h0, h1, h2, lfnTruncate_eq_trimTrailingPad]

/-- Witness for C1: fragments arriving in reverse slot order (slot 2
before slot 1) reconstruct the 15-unit name `ABCDEFGHIJKLMNO`. -/
theorem claim1_lfn_reconstruction_witness :
    (∀ f ∈ [lfnFragOrd2, lfnFragOrd1], f.order ≠ 0xE5 ∧ 1 ≤ f.order &&& 0x1F
      ∧ f.name_0.length = 5 ∧ f.name_1.length = 6 ∧ f.name_2.length = 2)
    ∧ nextLoop []
        ([lfnFragOrd2, lfnFragOrd1].map
            (fun f => DecodeResult.ok (FatDirEntryData.lfn f))
          ++ DecodeResult.ok (FatDirEntryData.file shortHello) :: [])
      = (NextRes.entry ⟨shortHello, trimTrailingPad (claimedLfnBuffer [lfnFragOrd2, lfnFragOrd1])⟩, [])
    ∧ trimTrailingPad (claimedLfnBuffer [lfnFragOrd2, lfnFragOrd1])
      = [65, 66, 67, 68, 69, 70, 71, 72, 73, 74, 75, 76, 77, 78, 79] :=
  ⟨by decide,
   claim1_lfn_reconstruction [lfnFragOrd2, lfnFragOrd1] shortHello []
     (by decide) (by decide) (by decide) (by decide),
   by decide⟩

/-- One-step unfolding of `open_dir`. -/
theorem open_dir_step (fs : Nat → List DecodeResult) (d : FatDir)
    (path : List Nat) :
    FatDir.open_dir fs d path = (match d.find_entry (split_path path).1 with
      | OpenRes.err k => OpenRes.err k
      | OpenRes.fatal m => OpenRes.fatal m
      | OpenRes.ok e =>
        match (split_path path).2 with
        | some rest =>
          (match e.to_dir fs with
           | ConvRes.ok d2 => FatDir.open_dir fs d2 rest
           | ConvRes.fatal m => OpenRes.fatal m)
        | none =>
          (match e.to_dir fs with
           | ConvRes.ok d2 => OpenRes.ok d2
           | ConvRes.fatal m => OpenRes.fatal m)) := by
  rw [FatDir.open_dir]
  cases hf : d.find_entry (split_path path).1 with
  | ok e => cases hs : (split_path path).2 <;> rfl
  | err k => rfl
  | fatal m => rfl

/-- One-step unfolding of `open_file`. -/
theorem open_file_step (fs : Nat → List DecodeResult) (d : FatDir)
    (path : List Nat) :
    FatDir.open_file fs d path = (match d.find_entry (split_path path).1 with
      | OpenRes.err k => OpenRes.err k
      | OpenRes.fatal m => OpenRes.fatal m
      | OpenRes.ok e =>
        match (split_path path).2 with
        | some rest =>
          (match e.to_dir fs with
           | ConvRes.ok d2 => FatDir.open_file fs d2 rest
           | ConvRes.fatal m => OpenRes.fatal m)
        | none =>
          (match e.to_file with
           | ConvRes.ok f => OpenRes.ok f
           | ConvRes.fatal m => OpenRes.fatal m)) := by
  rw [FatDir.open_file]
  cases hf : d.find_entry (split_path path).1 with
  | ok e => cases hs : (split_path path).2 <;> rfl
  | err k => rfl
  | fatal m => rfl

/-- The linear scan returns the first element satisfying the
predicate. -/
theorem find?_first {α : Type} (p : α → Bool) :
    ∀ (pre : List α) (e : α) (post : List α),
    (∀ x ∈ pre, p x = false) → p e = true →
    (pre ++ e :: post).find? p = some e := by
  intro pre
  induction pre with
  | nil =>
    intro e post _ hpe
    simp [List.find?_cons, hpe]
  | cons x xs ih =>
    intro e post hpre hpe
    have hx : p x = false := hpre x (by simp)
    simp only [List.cons_append, List.find?_cons, hx]
    exact ih e post (fun y hy => hpre y (by simp [hy])) hpe

/-- Characterization of `splitFirstSlash`: the head is the maximal
separator-free prefix, and the tail (when present) is everything after
the first separator. -/
theorem splitFirstSlash_spec : ∀ l : List Nat,
    (((splitFirstSlash l).2 = none → l = (splitFirstSlash l).1)
    ∧ (∀ r, (splitFirstSlash l).2 = some r →
        l = (splitFirstSlash l).1 ++ SLASH :: r))
    ∧ SLASH ∉ (splitFirstSlash l).1 := by
  intro l
  induction l with
  | nil => simp [splitFirstSlash]
  | cons c cs ih =>
    by_cases hc : c = SLASH
    · subst hc
      simp [splitFirstSlash]
    · refine ⟨⟨?_, ?_⟩, ?_⟩
      · intro h
        simp only [splitFirstSlash, if_neg hc] at h ⊢
        rw [← ih.1.1 h]
      · intro r h
        simp only [splitFirstSlash, if_neg hc] at h ⊢
        rw [List.cons_append, ← ih.1.2 r h]
      · simp only [splitFirstSlash, if_neg hc]
        intro hmem
        rcases List.mem_cons.mp hmem with h | h
        · exact hc h.symm
        · exact ih.2 h

/-- `find_entry` on a directory whose drain succeeds is the linear
scan of the drained entries. -/
theorem find_entry_of_list (d : FatDir) (name : List Nat)
    (es : List FatDirEntry) (hlist : (d.list).1 = DrainRes.ok es) :
    d.find_entry name
      = (match es.find? (fun e => eq_ignore_ascii_case e.file_name name) with
        | some e => OpenRes.ok e
        | none => OpenRes.err IoErrorKind.notFound) := by
  unfold FatDir.find_entry
  rw [hlist]

/-- C4: path resolution trims leading/trailing separators and splits
at the first remaining one; an entry's display name is its long name
when present, else its short name; the scan of the listed entries is
linear and first-match-wins under ASCII case-insensitive comparison;
with no tail the first match is converted to the requested handle,
with a tail the resolver recurses into it; and when no entry matches,
resolution fails with the not-found error. -/
theorem claim4_path_resolution (fs : Nat → List DecodeResult) (d : FatDir)
    (path : List Nat) (es : List FatDirEntry) :
    ((split_path path).2 = none →
      trimMatchesSlash path = (split_path path).1
      ∧ SLASH ∉ (split_path path).1)
    ∧ (∀ r, (split_path path).2 = some r →
      trimMatchesSlash path = (split_path path).1 ++ SLASH :: r
      ∧ SLASH ∉ (split_path path).1)
    ∧ (∀ e : FatDirEntry, (e.lfn ≠ [] → e.file_name = e.lfn)
      ∧ (e.lfn = [] → e.file_name = e.short_file_name))
    ∧ (∀ (pre post : List FatDirEntry) (e : FatDirEntry), es = pre ++ e :: post →
      (∀ x ∈ pre,
        eq_ignore_ascii_case x.file_name (split_path path).1 = false) →
      eq_ignore_ascii_case e.file_name (split_path path).1 = true →
      es.find? (fun x => eq_ignore_ascii_case x.file_name (split_path path).1)
        = some e)
    ∧ ((d.list).1 = DrainRes.ok es →
      (es.find? (fun e => eq_ignore_ascii_case e.file_name (split_path path).1)
          = none →
        FatDir.open_dir fs d path = OpenRes.err IoErrorKind.notFound
        ∧ FatDir.open_file fs d path = OpenRes.err IoErrorKind.notFound)
      ∧ (∀ e,
        es.find? (fun e => eq_ignore_ascii_case e.file_name (split_path path).1)
          = some e →
        ((split_path path).2 = none →
          FatDir.open_dir fs d path
            = (match e.to_dir fs with
              | ConvRes.ok d2 => OpenRes.ok d2
              | ConvRes.fatal m => OpenRes.fatal m)
          ∧ FatDir.open_file fs d path
            = (match e.to_file with
              | ConvRes.ok f => OpenRes.ok f
              | ConvRes.fatal m => OpenRes.fatal m))
        ∧ (∀ r, (split_path path).2 = some r →
          FatDir.open_dir fs d path
            = (match e.to_dir fs with
              | ConvRes.ok d2 => FatDir.open_dir fs d2 r
              | ConvRes.fatal m => OpenRes.fatal m)
          ∧ FatDir.open_file fs d path
            = (match e.to_dir fs with
              | ConvRes.ok d2 => FatDir.open_file fs d2 r
              | ConvRes.fatal m => OpenRes.fatal m)))) := by
  refine ⟨?_, ?_, ?_, ?_, ?_⟩
  · intro h
    exact ⟨(splitFirstSlash_spec (trimMatchesSlash path)).1.1 h,
      (splitFirstSlash_spec (trimMatchesSlash path)).2⟩
  · intro r h
    exact ⟨(splitFirstSlash_spec (trimMatchesSlash path)).1.2 r h,
      (splitFirstSlash_spec (trimMatchesSlash path)).2⟩
  · intro e
    constructor
    · intro h
      simp [FatDirEntry.file_name, h]
    · intro h
      simp [FatDirEntry.file_name, h]
  · intro pre post e hes hpre hpe
    rw [hes]
    exact find?_first _ pre e post hpre hpe
  · intro hlist
    constructor
    · intro hnone
      constructor
      · rw [open_dir_step, find_entry_of_list d _ es hlist, hnone]
      · rw [open_file_step, find_entry_of_list d _ es hlist, hnone]
    · intro e hsome
      constructor
      · intro htail
        constructor
        · rw [open_dir_step, find_entry_of_list d _ es hlist, hsome, htail]
        · rw [open_file_step, find_entry_of_list d _ es hlist, hsome, htail]
      · intro r htail
        constructor
        · rw [open_dir_step, find_entry_of_list d _ es hlist, hsome, htail]
        · rw [open_file_step, find_entry_of_list d _ es hlist, hsome, htail]

/-- Witness for C4: in the example root, the path `dir` (lower case)
resolves case-insensitively to the `DIR` entry and opens the
subdirectory at cluster 2. -/
theorem claim4_path_resolution_witness :
    (rootDirEx.list).1 = DrainRes.ok [dirEntryEx]
    ∧ ([dirEntryEx].find?
        (fun e => eq_ignore_ascii_case e.file_name (split_path [100, 105, 114]).1)
      = some dirEntryEx)
    ∧ (split_path [100, 105, 114]).2 = none
    ∧ FatDir.open_dir fsEx rootDirEx [100, 105, 114]
      = OpenRes.ok ⟨subRecords, subRecords⟩ := by
  have hn1 : nextLoop [] rootRecords
      = (NextRes.entry dirEntryEx, [DecodeResult.ok (FatDirEntryData.file termRec)]) := by
    decide
  have hn2 : nextLoop [] [DecodeResult.ok (FatDirEntryData.file termRec)]
      = (NextRes.endOfDir, []) := by decide
  have h2 : drainFrom [DecodeResult.ok (FatDirEntryData.file termRec)]
      = (DrainRes.ok [], []) := by
    rw [drainFrom_step, hn2]
  have h1 : drainFrom rootRecords = (DrainRes.ok [dirEntryEx], []) := by
    rw [drainFrom_step, hn1]
    simp [h2]
  have hlist : (rootDirEx.list).1 = DrainRes.ok [dirEntryEx] := by
    simp [FatDir.list, FatDir.rewind, rootDirEx, h1]
  have hfind : [dirEntryEx].find?
      (fun e => eq_ignore_ascii_case e.file_name (split_path [100, 105, 114]).1)
      = some dirEntryEx := by decide
  have htail : (split_path [100, 105, 114]).2 = none := by decide
  refine ⟨hlist, hfind, htail, ?_⟩
  have happ := ((((claim4_path_resolution fsEx rootDirEx [100, 105, 114]
      [dirEntryEx]).2.2.2.2) hlist).2 dirEntryEx hfind).1 htail
  rw [happ.1]
  decide

end Fatfs
